import Mathlib

/-!
Shallow embedding of the Nachos-style synchronization primitives
(Semaphore, Lock, Condition) and of the elevator/building simulation of
this repository, together with theorems checking the specification's
claims against the code.

Threads are identified by natural numbers.  The scheduler is cooperative
and single-processor: code running with interrupts disabled executes
atomically, so each interrupt-disabled region of the source is one step
of the models below.
-/

namespace Synch

/-- Tid is a thread identifier (the value of the C++ currentThread pointer). -/
abbrev Tid := Nat

/-- Semaphore state (src/code/threads/synch-sem.cc lines 36-41, identical
in src/unnamed/part_000): an integer value and a FIFO queue of blocked
threads.  The Nachos List appends at the tail and removes from the head. -/
structure Semaphore where
  value : Int
  queue : List Tid
deriving DecidableEq

/-- PRes is the outcome of one atomic activation of Semaphore::P's loop
body by a thread: either the value was nonzero and the thread proceeds
past the while loop, decrementing the value, or the value was zero and
the thread appends itself to the queue and sleeps.  There is no error
outcome in the source: P never fails, it only blocks. -/
inductive PRes where
  | proceed (s : Semaphore)
  | block (s : Semaphore)
deriving DecidableEq

/-- Pstep models one atomic activation of Semaphore::P
(src/code/threads/synch-sem.cc lines 64-76) by thread t: the check of
the while condition together with either the decrement (value nonzero)
or the enqueue-and-sleep (value zero).  This covers both the initial
entry into P and the re-check a woken waiter performs when it resumes
from Sleep inside the while loop; interrupts are off for the whole
activation, so it is a single atomic step. -/
def Semaphore.Pstep (s : Semaphore) (t : Tid) : PRes :=
  if s.value = 0 then
    .block { s with queue := s.queue ++ [t] }
  else
    .proceed { s with value := s.value - 1 }

/-- Vready is the first half of Semaphore::V
(src/code/threads/synch-sem.cc lines 86-98): remove one thread from the
front of the wait queue and, if one was present, make it runnable.  The
semaphore value is not touched by this half. -/
def Semaphore.Vready (s : Semaphore) : Semaphore × Option Tid :=
  match s.queue with
  | [] => (s, none)
  | t :: rest => ({ s with queue := rest }, some t)

/-- Vinc is the second half of Semaphore::V: increment the value. -/
def Semaphore.Vinc (s : Semaphore) : Semaphore :=
  { s with value := s.value + 1 }

/-- V is Semaphore::V: dequeue-and-ready one waiter, then increment the
value, in that program order, all inside one interrupt-disabled atomic
section.  The returned option is the thread made runnable, if any.  V
raises no error (the source has no assertion). -/
def Semaphore.V (s : Semaphore) : Semaphore × Option Tid :=
  let p := s.Vready
  (p.1.Vinc, p.2)

/-- clampValue is the step `if value greater than 1 then value = 1` that
Signal and Broadcast of the semaphore-based Condition
(src/code/threads/synch-sem.cc lines 162-163 and 174-175) apply to the
internal semaphore semCond after waking waiters. -/
def clampValue (s : Semaphore) : Semaphore :=
  if s.value > 1 then { s with value := 1 } else s

/-- broadcastLoop is the while loop of the semaphore-based
Condition::Broadcast (src/code/threads/synch-sem.cc lines 170-173):
while the internal semaphore's queue is nonempty, perform V.  Each V on
a nonempty queue pops the head thread, makes it runnable, and increments
the value, so the loop is written here by structural recursion on the
queue with one V inlined per iteration.  Returns the resulting semaphore
and the list of threads made runnable, in the order readied. -/
def broadcastLoopAux (v : Int) : List Tid → Semaphore × List Tid
  | [] => (⟨v, []⟩, [])
  | t :: rest =>
      let p := broadcastLoopAux (v + 1) rest
      (p.1, t :: p.2)

/-- broadcastLoop applies broadcastLoopAux to the semaphore's components. -/
def broadcastLoop (s : Semaphore) : Semaphore × List Tid :=
  broadcastLoopAux s.value s.queue

/-- condBroadcast is the semaphore-based Condition::Broadcast
(src/code/threads/synch-sem.cc lines 167-178) acting on the internal
semaphore semCond: V once per queued waiter, then clamp the value down
to 1 if it exceeds 1.  The bound-lock assertion does not affect
semCond's state and is elided here. -/
def condBroadcast (s : Semaphore) : Semaphore × List Tid :=
  let p := broadcastLoop s
  (clampValue p.1, p.2)

/-- resumeWoken runs, in the given order, the woken waiters of the
semaphore-based Condition: each resumes inside Semaphore::P's while loop
(Pstep) on the condition's internal semaphore, as called from
Condition::Wait (src/code/threads/synch-sem.cc line 154).  Returns the
final semaphore state and the list of threads whose P (hence whose Wait)
actually completed; the others re-enqueued themselves and are blocked
again. -/
def resumeWoken : Semaphore → List Tid → Semaphore × List Tid
  | s, [] => (s, [])
  | s, t :: rest =>
      match s.Pstep t with
      | .proceed s1 =>
          let p := resumeWoken s1 rest
          (p.1, t :: p.2)
      | .block s1 => resumeWoken s1 rest

/-- Phase is the control point of one thread with respect to one
queue-based Lock: outside the lock's operations; trying (it has called
Acquire and is about to run the interrupt-disabled loop check); waiting
(enqueued and asleep inside Acquire's while loop); runnable (removed
from the queue by Release and made ready, it will re-run the loop check
when scheduled); held (its Acquire has returned and it owns the lock). -/
inductive Phase where
  | outside
  | trying
  | waiting
  | runnable
  | held
deriving DecidableEq

/-- LockSt is the state of the queue-based Lock of src/unnamed/part_000
lines 109-154 together with the control point of every thread: mutex is
the binary flag, queue the FIFO wait queue, heldBy the heldByThread
pointer. -/
structure LockSt where
  mutex : Nat
  heldBy : Option Tid
  queue : List Tid
  phase : Tid → Phase

/-- lockInit is a freshly constructed Lock (src/unnamed/part_000 lines
109-114): mutex 1, empty queue, heldByThread NULL, every thread outside. -/
def lockInit : LockSt :=
  { mutex := 1, heldBy := none, queue := [], phase := fun _ => .outside }

/-- tryBody is the interrupt-disabled body of Lock::Acquire's loop check
(src/unnamed/part_000 lines 125-134), run both on first entry and when a
woken waiter resumes from Sleep inside the while loop: if mutex is 0 the
thread appends itself to the queue and sleeps; otherwise it sets mutex
to 0 and heldByThread to itself and Acquire returns. -/
def tryBody (s : LockSt) (t : Tid) : LockSt :=
  if s.mutex = 0 then
    { s with queue := s.queue ++ [t], phase := Function.update s.phase t .waiting }
  else
    { s with mutex := 0, heldBy := some t, phase := Function.update s.phase t .held }

/-- releaseBody is the interrupt-disabled body of Lock::Release
(src/unnamed/part_000 lines 140-148): remove one thread from the front
of the queue (if any) and make it runnable, set mutex to 1, clear
heldByThread; the releasing thread leaves the operation. -/
def releaseBody (s : LockSt) (t : Tid) : LockSt :=
  match s.queue with
  | [] =>
      { mutex := 1, heldBy := none, queue := [],
        phase := Function.update s.phase t .outside }
  | w :: rest =>
      { mutex := 1, heldBy := none, queue := rest,
        phase := Function.update (Function.update s.phase t .outside) w .runnable }

/-- LockLab labels the atomic transitions of the Lock system by the
thread performing them. -/
inductive LockLab where
  | callAcquire (t : Tid)
  | tryStep (t : Tid)
  | resumeStep (t : Tid)
  | releaseStep (t : Tid)
deriving DecidableEq

/-- LockStep is the small-step transition relation of the queue-based
Lock under the cooperative single-processor scheduler: each label is one
interrupt-disabled region of the source, so no two of them interleave.
The ASSERT at the top of Acquire (the caller does not already hold the
lock, src/unnamed/part_000 line 122) and of Release (the caller holds
it, line 139) are fatal on violation, so a violating call has no
transition. -/
inductive LockStep : LockSt → LockLab → LockSt → Prop where
  | callAcquire {s : LockSt} {t : Tid} :
      s.phase t = .outside → s.heldBy ≠ some t →
      LockStep s (.callAcquire t) { s with phase := Function.update s.phase t .trying }
  | tryStep {s : LockSt} {t : Tid} :
      s.phase t = .trying → LockStep s (.tryStep t) (tryBody s t)
  | resumeStep {s : LockSt} {t : Tid} :
      s.phase t = .runnable → LockStep s (.resumeStep t) (tryBody s t)
  | releaseStep {s : LockSt} {t : Tid} :
      s.phase t = .held → s.heldBy = some t →
      LockStep s (.releaseStep t) (releaseBody s t)

/-- LockReach marks the states reachable from a fresh Lock. -/
inductive LockReach : LockSt → Prop where
  | init : LockReach lockInit
  | step {s : LockSt} {l : LockLab} {s' : LockSt} :
      LockReach s → LockStep s l s' → LockReach s'

/-- LockInv is the inductive invariant of the Lock system: a thread is
in phase held exactly when heldByThread points at it, and while mutex is
nonzero (the lock is free) no thread holds the lock. -/
def LockInv (s : LockSt) : Prop :=
  (∀ t, s.phase t = .held ↔ s.heldBy = some t) ∧ (s.mutex ≠ 0 → s.heldBy = none)

/-- SPhase is the control point of one thread with respect to the
semaphore-based Lock of src/code/threads/synch-sem.cc lines 106-136:
outside its operations; entering (past Acquire's ASSERT, about to run an
activation of semLock->P's loop); waiting (enqueued in the internal
semaphore's queue, asleep); runnable (readied by a V, it will re-run P's
loop check when scheduled); setting (its P returned, it is about to run
the heldByThread write, which happens after P with interrupts back on);
held (its Acquire has returned); releasing (it ran heldByThread = NULL
inside Release, about to read semLock->value); vPending (it read value
0 and is about to run semLock->V()). -/
inductive SPhase where
  | outside
  | entering
  | waiting
  | runnable
  | setting
  | held
  | releasing
  | vPending
deriving DecidableEq

/-- SemLockSt is the state of the semaphore-based Lock of
src/code/threads/synch-sem.cc together with the control point of every
thread: value and queue are the internal semaphore semLock (created
with value 1), heldBy is the heldByThread pointer. -/
structure SemLockSt where
  value : Int
  queue : List Tid
  heldBy : Option Tid
  phase : Tid → SPhase

/-- semLockInit is a freshly constructed semaphore-based Lock
(src/code/threads/synch-sem.cc lines 106-110): internal semaphore value
1 with empty queue, heldByThread NULL, every thread outside. -/
def semLockInit : SemLockSt :=
  { value := 1, queue := [], heldBy := none, phase := fun _ => .outside }

/-- pBody is one interrupt-disabled activation of semLock->P's loop by
thread t (Semaphore::P, src/code/threads/synch-sem.cc lines 64-76), run
on first entry and when a woken waiter resumes: if the value is 0 the
thread appends itself to the semaphore's queue and sleeps; otherwise it
decrements the value, P returns, and the thread is about to execute the
heldByThread write. -/
def pBody (s : SemLockSt) (t : Tid) : SemLockSt :=
  if s.value = 0 then
    { s with queue := s.queue ++ [t], phase := Function.update s.phase t .waiting }
  else
    { s with value := s.value - 1, phase := Function.update s.phase t .setting }

/-- vBody is the atomic Semaphore::V issued from Lock::Release
(src/code/threads/synch-sem.cc lines 86-98 called at line 129): dequeue
one waiter from the front (making it runnable) and increment the value;
the releasing thread then leaves the operation. -/
def vBody (s : SemLockSt) (t : Tid) : SemLockSt :=
  match s.queue with
  | [] =>
      { s with value := s.value + 1,
               phase := Function.update s.phase t .outside }
  | w :: rest =>
      { s with value := s.value + 1, queue := rest,
               phase := Function.update (Function.update s.phase t .outside) w .runnable }

/-- SemLockLab labels the steps of the semaphore-based Lock system by
the thread performing them. -/
inductive SemLockLab where
  | callAcquire (t : Tid)
  | pTry (t : Tid)
  | pResume (t : Tid)
  | setHeld (t : Tid)
  | clearHeld (t : Tid)
  | checkValue (t : Tid)
  | vStep (t : Tid)
deriving DecidableEq

/-- SemLockStep is the small-step transition relation of the
semaphore-based Lock.  Only P's loop activations and V are
interrupt-disabled in the source, so Acquire is: the ASSERT (fatal when
the caller already holds the lock, so no transition), then P
activations, then the heldByThread write as its own step; Release is:
the ASSERT (the caller must hold the lock), the heldByThread clear, the
read of semLock->value, and, when it read 0, the atomic V - each a
separate step, with other threads free to run in between. -/
inductive SemLockStep : SemLockSt → SemLockLab → SemLockSt → Prop where
  | callAcquire {s : SemLockSt} {t : Tid} :
      s.phase t = .outside → s.heldBy ≠ some t →
      SemLockStep s (.callAcquire t)
        { s with phase := Function.update s.phase t .entering }
  | pTry {s : SemLockSt} {t : Tid} :
      s.phase t = .entering → SemLockStep s (.pTry t) (pBody s t)
  | pResume {s : SemLockSt} {t : Tid} :
      s.phase t = .runnable → SemLockStep s (.pResume t) (pBody s t)
  | setHeld {s : SemLockSt} {t : Tid} :
      s.phase t = .setting →
      SemLockStep s (.setHeld t)
        { s with heldBy := some t, phase := Function.update s.phase t .held }
  | clearHeld {s : SemLockSt} {t : Tid} :
      s.phase t = .held → s.heldBy = some t →
      SemLockStep s (.clearHeld t)
        { s with heldBy := none, phase := Function.update s.phase t .releasing }
  | checkValue {s : SemLockSt} {t : Tid} :
      s.phase t = .releasing →
      SemLockStep s (.checkValue t)
        (if s.value = 0 then { s with phase := Function.update s.phase t .vPending }
         else { s with phase := Function.update s.phase t .outside })
  | vStep {s : SemLockSt} {t : Tid} :
      s.phase t = .vPending → SemLockStep s (.vStep t) (vBody s t)

/-- SemLockReach marks the states reachable from a fresh
semaphore-based Lock. -/
inductive SemLockReach : SemLockSt → Prop where
  | init : SemLockReach semLockInit
  | step {s : SemLockSt} {l : SemLockLab} {s' : SemLockSt} :
      SemLockReach s → SemLockStep s l s' → SemLockReach s'

/-- inCritSem holds of the phases in which a thread owns the semaphore
token: its P has consumed the value and its Release has not yet
restored it (or finished deciding not to). -/
def inCritSem (p : SPhase) : Prop :=
  p = .setting ∨ p = .held ∨ p = .releasing ∨ p = .vPending

/-- TokInv is the token-conservation part of the semaphore-based Lock's
invariant: either the internal value is 1 and no thread holds the
token, or the value is 0 and exactly one thread does. -/
def TokInv (v : Int) (phase : Tid → SPhase) : Prop :=
  (v = 1 ∧ ∀ t, ¬ inCritSem (phase t))
    ∨ (v = 0 ∧ ∃ t, inCritSem (phase t) ∧ ∀ u, inCritSem (phase u) → u = t)

/-- SemLockInv is the inductive invariant of the semaphore-based Lock:
the token conservation, heldByThread pointing at a thread exactly when
it is in phase held, queued threads being asleep (waiting), and the
queue having no duplicates. -/
def SemLockInv (s : SemLockSt) : Prop :=
  TokInv s.value s.phase
    ∧ (∀ t, s.phase t = .held ↔ s.heldBy = some t)
    ∧ (∀ t, t ∈ s.queue → s.phase t = .waiting)
    ∧ s.queue.Nodup

end Synch

namespace Synch

theorem lockInv_init : LockInv lockInit := by
  constructor
  · intro t
    simp [lockInit]
  · intro _
    rfl

theorem lockInv_tryBody {s : LockSt} {t : Tid} (hi : LockInv s)
    (hp : s.phase t ≠ Phase.held) : LockInv (tryBody s t) := by
  obtain ⟨h1, h2⟩ := hi
  by_cases hm : s.mutex = 0
  · rw [tryBody, if_pos hm]
    refine ⟨fun u => ?_, fun hmm => h2 hmm⟩
    by_cases hu : u = t
    · subst hu
      simp only [Function.update_same]
      constructor
      · intro h
        exact absurd h (by simp)
      · intro h
        exact absurd ((h1 u).mpr h) hp
    · simpa [Function.update_noteq hu] using h1 u
  · have hnone : s.heldBy = none := h2 hm
    rw [tryBody, if_neg hm]
    refine ⟨fun u => ?_, fun hmm => absurd rfl hmm⟩
    by_cases hu : u = t
    · subst hu
      simp [Function.update_same]
    · simp only [Function.update_noteq hu]
      constructor
      · intro h
        have hx := (h1 u).mp h
        rw [hnone] at hx
        exact absurd hx (by simp)
      · intro h
        exact absurd ((Option.some.injEq _ _).mp h.symm) hu

theorem lockInv_step {s : LockSt} {l : LockLab} {s' : LockSt}
    (hi : LockInv s) (hs : LockStep s l s') : LockInv s' := by
  cases hs with
  | @callAcquire t hp hnb =>
      obtain ⟨h1, h2⟩ := hi
      refine ⟨fun u => ?_, fun hm => h2 hm⟩
      by_cases hu : u = t
      · subst hu
        simp only [Function.update_same]
        constructor
        · intro h
          exact absurd h (by simp)
        · intro h
          exact absurd h hnb
      · simpa [Function.update_noteq hu] using h1 u
  | @tryStep t hp =>
      exact lockInv_tryBody hi (by rw [hp]; simp)
  | @resumeStep t hp =>
      exact lockInv_tryBody hi (by rw [hp]; simp)
  | @releaseStep t hp hb =>
      obtain ⟨h1, h2⟩ := hi
      cases hq : s.queue with
      | nil =>
          simp only [releaseBody, hq]
          refine ⟨fun u => ?_, fun _ => rfl⟩
          by_cases hu : u = t
          · subst hu
            simp [Function.update_same]
          · simp only [Function.update_noteq hu]
            constructor
            · intro h
              have hx := (h1 u).mp h
              rw [hb] at hx
              exact absurd ((Option.some.injEq _ _).mp hx) (fun e => hu e.symm)
            · intro h
              exact absurd h (by simp)
      | cons w rest =>
          simp only [releaseBody, hq]
          refine ⟨fun u => ?_, fun _ => rfl⟩
          by_cases huw : u = w
          · subst huw
            simp [Function.update_same]
          · simp only [Function.update_noteq huw]
            by_cases hu : u = t
            · subst hu
              simp [Function.update_same]
            · simp only [Function.update_noteq hu]
              constructor
              · intro h
                have hx := (h1 u).mp h
                rw [hb] at hx
                exact absurd ((Option.some.injEq _ _).mp hx) (fun e => hu e.symm)
              · intro h
                exact absurd h (by simp)

theorem lockInv_reach {s : LockSt} (h : LockReach s) : LockInv s := by
  induction h with
  | init => exact lockInv_init
  | step _ hs ih => exact lockInv_step ih hs

theorem lock_holder_change {s : LockSt} {l : LockLab} {s' : LockSt} {t : Tid}
    (hs : LockStep s l s') (h : s'.heldBy = some t) :
    s.heldBy = some t ∨ l = .tryStep t ∨ l = .resumeStep t := by
  cases hs with
  | @callAcquire u hp hnb =>
      exact Or.inl h
  | @tryStep u hp =>
      rw [tryBody] at h
      by_cases hm : s.mutex = 0
      · rw [if_pos hm] at h
        exact Or.inl h
      · rw [if_neg hm] at h
        have he : u = t := (Option.some.injEq _ _).mp h
        subst he
        exact Or.inr (Or.inl rfl)
  | @resumeStep u hp =>
      rw [tryBody] at h
      by_cases hm : s.mutex = 0
      · rw [if_pos hm] at h
        exact Or.inl h
      · rw [if_neg hm] at h
        have he : u = t := (Option.some.injEq _ _).mp h
        subst he
        exact Or.inr (Or.inr rfl)
  | @releaseStep u hp hb =>
      cases hq : s.queue with
      | nil =>
          simp only [releaseBody, hq] at h
          exact absurd h (by simp)
      | cons w rest =>
          simp only [releaseBody, hq] at h
          exact absurd h (by simp)

theorem tokInv_update_noncrit {v : Int} {phase : Tid → SPhase} {t : Tid} {p : SPhase}
    (h : TokInv v phase) (h1 : ¬ inCritSem (phase t)) (h2 : ¬ inCritSem p) :
    TokInv v (Function.update phase t p) := by
  rcases h with ⟨hv, hall⟩ | ⟨hv, w, hw, huniq⟩
  · left
    refine ⟨hv, fun u => ?_⟩
    by_cases hu : u = t
    · subst hu
      simp only [Function.update_same]
      exact h2
    · simp only [Function.update_noteq hu]
      exact hall u
  · right
    have hwt : w ≠ t := fun e => h1 (e ▸ hw)
    refine ⟨hv, w, ?_, ?_⟩
    · simp only [Function.update_noteq hwt]
      exact hw
    · intro u hu
      by_cases hut : u = t
      · subst hut
        simp only [Function.update_same] at hu
        exact absurd hu h2
      · simp only [Function.update_noteq hut] at hu
        exact huniq u hu

theorem tokInv_consume {v : Int} {phase : Tid → SPhase} {t : Tid}
    (h : TokInv v phase) (hv : ¬ v = 0) (_h1 : ¬ inCritSem (phase t)) :
    TokInv (v - 1) (Function.update phase t .setting) := by
  rcases h with ⟨hv1, hall⟩ | ⟨hv0, _⟩
  · right
    refine ⟨by omega, t, ?_, ?_⟩
    · simp only [Function.update_same]
      simp [inCritSem]
    · intro u hu
      by_cases hut : u = t
      · exact hut
      · simp only [Function.update_noteq hut] at hu
        exact absurd hu (hall u)
  · exact absurd hv0 hv

theorem tokInv_crit_update {v : Int} {phase : Tid → SPhase} {t : Tid} {p : SPhase}
    (h : TokInv v phase) (h1 : inCritSem (phase t)) (h2 : inCritSem p) :
    TokInv v (Function.update phase t p) := by
  rcases h with ⟨_, hall⟩ | ⟨hv, w, hw, huniq⟩
  · exact absurd h1 (hall t)
  · right
    refine ⟨hv, t, ?_, ?_⟩
    · simp only [Function.update_same]
      exact h2
    · intro u hu
      by_cases hut : u = t
      · exact hut
      · simp only [Function.update_noteq hut] at hu
        exact (huniq u hu).trans (huniq t h1).symm

theorem semHeldBy_none {s : SemLockSt}
    (hTok : TokInv s.value s.phase)
    (hHeld : ∀ u, s.phase u = .held ↔ s.heldBy = some u)
    {t : Tid} (hc : inCritSem (s.phase t)) (hnh : s.phase t ≠ .held) :
    s.heldBy = none := by
  cases h : s.heldBy with
  | none => rfl
  | some u =>
      have hu : s.phase u = .held := (hHeld u).mpr h
      have huc : inCritSem (s.phase u) := by simp [inCritSem, hu]
      rcases hTok with ⟨_, hall⟩ | ⟨_, w, hw, huniq⟩
      · exact absurd hc (hall t)
      · have hut : u = t := (huniq u huc).trans (huniq t hc).symm
        rw [hut] at hu
        exact absurd hu hnh

theorem semLockInv_init : SemLockInv semLockInit := by
  refine ⟨Or.inl ⟨rfl, fun t => ?_⟩, fun t => ?_, fun t ht => ?_, ?_⟩
  · simp [semLockInit, inCritSem]
  · simp [semLockInit]
  · simp [semLockInit] at ht
  · simp [semLockInit]

theorem semLockInv_pBody {s : SemLockSt} {t : Tid} (hi : SemLockInv s)
    (hp1 : ¬ inCritSem (s.phase t)) (hp2 : s.phase t ≠ .held)
    (hp3 : s.phase t ≠ .waiting) : SemLockInv (pBody s t) := by
  obtain ⟨hTok, hHeld, hQ, hND⟩ := hi
  have htq : t ∉ s.queue := fun hmem => hp3 (hQ t hmem)
  by_cases hv : s.value = 0
  · rw [pBody, if_pos hv]
    refine ⟨?_, ?_, ?_, ?_⟩
    · exact tokInv_update_noncrit hTok hp1 (by simp [inCritSem])
    · intro u
      by_cases hu : u = t
      · subst hu
        simp only [Function.update_same]
        constructor
        · intro h
          exact absurd h (by simp)
        · intro h
          exact absurd ((hHeld u).mpr h) hp2
      · simpa [Function.update_noteq hu] using hHeld u
    · intro u hu
      rw [List.mem_append] at hu
      rcases hu with hu | hu
      · have hw := hQ u hu
        have hut : u ≠ t := fun e => htq (e ▸ hu)
        simp only [Function.update_noteq hut]
        exact hw
      · simp only [List.mem_singleton] at hu
        subst hu
        simp [Function.update_same]
    · rw [List.nodup_append]
      refine ⟨hND, List.nodup_singleton t, ?_⟩
      intro a ha hb
      simp only [List.mem_singleton] at hb
      subst hb
      exact htq ha
  · rw [pBody, if_neg hv]
    refine ⟨?_, ?_, ?_, hND⟩
    · exact tokInv_consume hTok hv hp1
    · intro u
      by_cases hu : u = t
      · subst hu
        simp only [Function.update_same]
        constructor
        · intro h
          exact absurd h (by simp)
        · intro h
          exact absurd ((hHeld u).mpr h) hp2
      · simpa [Function.update_noteq hu] using hHeld u
    · intro u hu
      have hw := hQ u hu
      have hut : u ≠ t := fun e => htq (e ▸ hu)
      simp only [Function.update_noteq hut]
      exact hw

theorem semLockInv_step {s : SemLockSt} {l : SemLockLab} {s' : SemLockSt}
    (hi : SemLockInv s) (hs : SemLockStep s l s') : SemLockInv s' := by
  obtain ⟨hTok, hHeld, hQ, hND⟩ := hi
  cases hs with
  | @callAcquire t hp hnb =>
      refine ⟨?_, ?_, ?_, hND⟩
      · exact tokInv_update_noncrit hTok (by simp [inCritSem, hp]) (by simp [inCritSem])
      · intro u
        by_cases hu : u = t
        · subst hu
          simp only [Function.update_same]
          constructor
          · intro h
            exact absurd h (by simp)
          · intro h
            exact absurd h hnb
        · simpa [Function.update_noteq hu] using hHeld u
      · intro u hu
        have hw := hQ u hu
        have hut : u ≠ t := fun e => by
          rw [e, hp] at hw
          exact SPhase.noConfusion hw
        simp only [Function.update_noteq hut]
        exact hw
  | @pTry t hp =>
      exact semLockInv_pBody ⟨hTok, hHeld, hQ, hND⟩
        (by simp [inCritSem, hp]) (by rw [hp]; simp) (by rw [hp]; simp)
  | @pResume t hp =>
      exact semLockInv_pBody ⟨hTok, hHeld, hQ, hND⟩
        (by simp [inCritSem, hp]) (by rw [hp]; simp) (by rw [hp]; simp)
  | @setHeld t hp =>
      refine ⟨?_, ?_, ?_, hND⟩
      · exact tokInv_crit_update hTok (by simp [inCritSem, hp]) (by simp [inCritSem])
      · intro u
        by_cases hu : u = t
        · subst hu
          simp [Function.update_same]
        · simp only [Function.update_noteq hu]
          constructor
          · intro h
            have huc : inCritSem (s.phase u) := by simp [inCritSem, h]
            have htc : inCritSem (s.phase t) := by simp [inCritSem, hp]
            rcases hTok with ⟨_, hall⟩ | ⟨_, w, hw, huniq⟩
            · exact absurd htc (hall t)
            · exact absurd ((huniq u huc).trans (huniq t htc).symm) hu
          · intro h
            exact absurd ((Option.some.injEq _ _).mp h).symm hu
      · intro u hu
        have hw := hQ u hu
        have hut : u ≠ t := fun e => by
          rw [e, hp] at hw
          exact SPhase.noConfusion hw
        simp only [Function.update_noteq hut]
        exact hw
  | @clearHeld t hp hb =>
      refine ⟨?_, ?_, ?_, hND⟩
      · exact tokInv_crit_update hTok (by simp [inCritSem, hp]) (by simp [inCritSem])
      · intro u
        by_cases hu : u = t
        · subst hu
          simp only [Function.update_same]
          constructor
          · intro h
            exact absurd h (by simp)
          · intro h
            exact absurd h (by simp)
        · simp only [Function.update_noteq hu]
          constructor
          · intro h
            have hx := (hHeld u).mp h
            rw [hb] at hx
            exact absurd ((Option.some.injEq _ _).mp hx) (fun e => hu e.symm)
          · intro h
            exact absurd h (by simp)
      · intro u hu
        have hw := hQ u hu
        have hut : u ≠ t := fun e => by
          rw [e, hp] at hw
          exact SPhase.noConfusion hw
        simp only [Function.update_noteq hut]
        exact hw
  | @checkValue t hp =>
      by_cases hv : s.value = 0
      · rw [if_pos hv]
        have hnone : s.heldBy = none :=
          @semHeldBy_none s hTok hHeld t (by simp [inCritSem, hp]) (by rw [hp]; simp)
        refine ⟨?_, ?_, ?_, hND⟩
        · exact @tokInv_crit_update s.value s.phase t SPhase.vPending hTok
            (by simp [inCritSem, hp]) (by simp [inCritSem])
        · intro u
          by_cases hu : u = t
          · subst hu
            simp only [Function.update_same]
            constructor
            · intro h
              exact absurd h (by simp)
            · intro h
              rw [hnone] at h
              exact absurd h (by simp)
          · simp only [Function.update_noteq hu]
            constructor
            · intro h
              have hx := (hHeld u).mp h
              rw [hnone] at hx
              exact absurd hx (by simp)
            · intro h
              rw [hnone] at h
              exact absurd h (by simp)
        · intro u hu
          have hw := hQ u hu
          have hut : u ≠ t := fun e => by
            rw [e, hp] at hw
            exact SPhase.noConfusion hw
          simp only [Function.update_noteq hut]
          exact hw
      · exfalso
        rcases hTok with ⟨_, hall⟩ | ⟨hv0, _⟩
        · exact hall t (by simp [inCritSem, hp])
        · exact hv hv0
  | @vStep t hp =>
      have htc : inCritSem (s.phase t) := by simp [inCritSem, hp]
      have hnone : s.heldBy = none :=
        @semHeldBy_none s hTok hHeld t htc (by rw [hp]; simp)
      cases hq : s.queue with
      | nil =>
          simp only [vBody, hq]
          refine ⟨?_, ?_, ?_, ?_⟩
          · rcases hTok with ⟨_, hall⟩ | ⟨hv0, w, hw, huniq⟩
            · exact absurd htc (hall t)
            · left
              refine ⟨by show s.value + 1 = 1; omega, fun u => ?_⟩
              by_cases hu : u = t
              · subst hu
                simp only [Function.update_same]
                simp [inCritSem]
              · simp only [Function.update_noteq hu]
                intro hc
                exact hu ((huniq u hc).trans (huniq t htc).symm)
          · intro u
            by_cases hu : u = t
            · subst hu
              simp only [Function.update_same]
              constructor
              · intro h
                exact absurd h (by simp)
              · intro h
                rw [hnone] at h
                exact absurd h (by simp)
            · simp only [Function.update_noteq hu]
              constructor
              · intro h
                have hx := (hHeld u).mp h
                rw [hnone] at hx
                exact absurd hx (by simp)
              · intro h
                rw [hnone] at h
                exact absurd h (by simp)
          · intro u hu
            exact absurd hu (List.not_mem_nil u)
          · exact List.nodup_nil
      | cons w rest =>
          have hwq : w ∈ s.queue := by
            rw [hq]
            exact List.mem_cons_self w rest
          have hww : s.phase w = .waiting := hQ w hwq
          simp only [vBody, hq]
          refine ⟨?_, ?_, ?_, ?_⟩
          · rcases hTok with ⟨_, hall⟩ | ⟨hv0, x, hx, huniq⟩
            · exact absurd htc (hall t)
            · left
              refine ⟨by show s.value + 1 = 1; omega, fun u => ?_⟩
              by_cases huw : u = w
              · subst huw
                simp only [Function.update_same]
                simp [inCritSem]
              · simp only [Function.update_noteq huw]
                by_cases hut : u = t
                · subst hut
                  simp only [Function.update_same]
                  simp [inCritSem]
                · simp only [Function.update_noteq hut]
                  intro hc
                  exact hut ((huniq u hc).trans (huniq t htc).symm)
          · intro u
            by_cases huw : u = w
            · subst huw
              simp only [Function.update_same]
              constructor
              · intro h
                exact absurd h (by simp)
              · intro h
                rw [hnone] at h
                exact absurd h (by simp)
            · simp only [Function.update_noteq huw]
              by_cases hut : u = t
              · subst hut
                simp only [Function.update_same]
                constructor
                · intro h
                  exact absurd h (by simp)
                · intro h
                  rw [hnone] at h
                  exact absurd h (by simp)
              · simp only [Function.update_noteq hut]
                constructor
                · intro h
                  have hx := (hHeld u).mp h
                  rw [hnone] at hx
                  exact absurd hx (by simp)
                · intro h
                  rw [hnone] at h
                  exact absurd h (by simp)
          · intro u hu
            have humem : u ∈ s.queue := by
              rw [hq]
              exact List.mem_cons_of_mem w hu
            have hw2 := hQ u humem
            have hut : u ≠ t := fun e => by
              rw [e, hp] at hw2
              exact SPhase.noConfusion hw2
            have huw : u ≠ w := by
              intro e
              rw [hq] at hND
              exact (List.nodup_cons.mp hND).1 (e ▸ hu)
            simp only [Function.update_noteq huw, Function.update_noteq hut]
            exact hw2
          · rw [hq] at hND
            exact (List.nodup_cons.mp hND).2

theorem semLockInv_reach {s : SemLockSt} (h : SemLockReach s) : SemLockInv s := by
  induction h with
  | init => exact semLockInv_init
  | step _ hs ih => exact semLockInv_step ih hs

theorem semLock_holder_change {s : SemLockSt} {l : SemLockLab} {s' : SemLockSt}
    {t : Tid} (hs : SemLockStep s l s') (h : s'.heldBy = some t) :
    s.heldBy = some t ∨ (l = .setHeld t ∧ s.phase t = .setting) := by
  cases hs with
  | @callAcquire u hp hnb =>
      exact Or.inl h
  | @pTry u hp =>
      simp only [pBody] at h
      by_cases hv : s.value = 0
      · rw [if_pos hv] at h
        exact Or.inl h
      · rw [if_neg hv] at h
        exact Or.inl h
  | @pResume u hp =>
      simp only [pBody] at h
      by_cases hv : s.value = 0
      · rw [if_pos hv] at h
        exact Or.inl h
      · rw [if_neg hv] at h
        exact Or.inl h
  | @setHeld u hp =>
      have hut : u = t := (Option.some.injEq _ _).mp h
      subst hut
      exact Or.inr ⟨rfl, hp⟩
  | @clearHeld u hp hb =>
      exact absurd h (by simp)
  | @checkValue u hp =>
      by_cases hv : s.value = 0
      · rw [if_pos hv] at h
        exact Or.inl h
      · rw [if_neg hv] at h
        exact Or.inl h
  | @vStep u hp =>
      cases hq : s.queue with
      | nil =>
          simp only [vBody, hq] at h
          exact Or.inl h
      | cons w rest =>
          simp only [vBody, hq] at h
          exact Or.inl h

/-- C1: mutual exclusion for both Lock implementations of this
repository.  Queue-based Lock (src/unnamed/part_000): in every
reachable state at most one thread's Acquire has returned without a
matching Release (at most one thread is in phase held), and ownership
is only ever gained by a thread completing the full interrupt-disabled
acquire sequence (a tryStep or resumeStep of that thread): Release
never hands the lock directly to another thread, so a woken waiter
becomes the next holder only after it resumes and completes the
acquire loop, and the mutex test-and-take is a single atomic section so
no other thread can acquire within it.  Semaphore-based Lock
(src/code/threads/synch-sem.cc): likewise at most one thread is in
phase held in every reachable state, and heldByThread is only ever
gained by a thread's own setHeld step, which is the final step of its
acquire sequence, taken from phase setting, reached only by its P
consuming the internal semaphore; Release never installs another
holder. -/
theorem lock_mutual_exclusion (s : LockSt) (h : LockReach s)
    (s2 : SemLockSt) (h2 : SemLockReach s2) :
    ((∀ t u, s.phase t = .held → s.phase u = .held → t = u)
      ∧ ∀ (l : LockLab) (s' : LockSt) (t : Tid),
          LockStep s l s' → s'.heldBy = some t →
            s.heldBy = some t ∨ l = .tryStep t ∨ l = .resumeStep t)
      ∧ ((∀ t u, s2.phase t = .held → s2.phase u = .held → t = u)
      ∧ ∀ (l : SemLockLab) (s2' : SemLockSt) (t : Tid),
          SemLockStep s2 l s2' → s2'.heldBy = some t →
            s2.heldBy = some t ∨ (l = .setHeld t ∧ s2.phase t = .setting)) := by
  constructor
  · obtain ⟨h1, _⟩ := lockInv_reach h
    constructor
    · intro t u ht hu
      have et := (h1 t).mp ht
      have eu := (h1 u).mp hu
      rw [et] at eu
      exact (Option.some.injEq _ _).mp eu
    · intro l s' t hs hheld
      exact lock_holder_change hs hheld
  · obtain ⟨_, h1, _, _⟩ := semLockInv_reach h2
    constructor
    · intro t u ht hu
      have et := (h1 t).mp ht
      have eu := (h1 u).mp hu
      rw [et] at eu
      exact (Option.some.injEq _ _).mp eu
    · intro l s2' t hs hheld
      exact semLock_holder_change hs hheld

/-- Witness for C1 at the initial (freshly constructed, reachable)
states of both Lock implementations. -/
theorem lock_mutual_exclusion_witness :
    (LockReach lockInit ∧ SemLockReach semLockInit)
      ∧ (((∀ t u, lockInit.phase t = .held → lockInit.phase u = .held → t = u)
      ∧ ∀ (l : LockLab) (s' : LockSt) (t : Tid),
          LockStep lockInit l s' → s'.heldBy = some t →
            lockInit.heldBy = some t ∨ l = .tryStep t ∨ l = .resumeStep t)
      ∧ ((∀ t u, semLockInit.phase t = .held → semLockInit.phase u = .held → t = u)
      ∧ ∀ (l : SemLockLab) (s2' : SemLockSt) (t : Tid),
          SemLockStep semLockInit l s2' → s2'.heldBy = some t →
            semLockInit.heldBy = some t ∨ (l = .setHeld t ∧ semLockInit.phase t = .setting))) :=
  ⟨⟨LockReach.init, SemLockReach.init⟩,
    lock_mutual_exclusion lockInit LockReach.init semLockInit SemLockReach.init⟩

/-- C3: in Semaphore::V the blocked waiter is removed from the wait
queue and made runnable strictly before the value is incremented: V is
exactly Vinc composed after Vready, and the intermediate state (after
the waiter is readied) still carries the unincremented value.  After V
the value is the old value plus one, so the released waiter, resuming
inside P with no intervening semaphore operation, finds the value
already incremented and completes P (it does not re-block).  V raises no
error, and every activation of P either proceeds or blocks - there is no
failure outcome. -/
theorem semaphore_v_readies_before_increment
    (s : Synch.Semaphore) (w : Tid) (rest : List Tid)
    (hq : s.queue = w :: rest) (hv : 0 ≤ s.value) :
    s.V = ((s.Vready).1.Vinc, (s.Vready).2)
      ∧ (s.Vready).1.value = s.value
      ∧ (s.Vready).2 = some w
      ∧ (s.V).1.value = s.value + 1
      ∧ (s.V).1.Pstep w = .proceed ⟨s.value, rest⟩
      ∧ ∀ (s2 : Synch.Semaphore) (t : Tid),
          (∃ s3, s2.Pstep t = .proceed s3) ∨ (∃ s3, s2.Pstep t = .block s3) := by
  obtain ⟨v, q⟩ := s
  have hq' : q = w :: rest := hq
  subst hq'
  have hv' : 0 ≤ v := hv
  refine ⟨rfl, rfl, rfl, ?_, ?_, ?_⟩
  · simp [Semaphore.V, Semaphore.Vready, Semaphore.Vinc]
  · have hne : v + 1 ≠ 0 := by omega
    simp [Semaphore.V, Semaphore.Vready, Semaphore.Vinc, Semaphore.Pstep, hne]
  · intro s2 t
    by_cases h : s2.value = 0
    · refine Or.inr ⟨{ s2 with queue := s2.queue ++ [t] }, ?_⟩
      simp [Semaphore.Pstep, h]
    · refine Or.inl ⟨{ s2 with value := s2.value - 1 }, ?_⟩
      simp [Semaphore.Pstep, h]

/-- Witness for C3 at the concrete semaphore with value 0 and one
blocked waiter, thread 5. -/
theorem semaphore_v_readies_before_increment_witness :
    (Semaphore.queue ⟨0, [5]⟩ = 5 :: [] ∧ 0 ≤ Semaphore.value ⟨0, [5]⟩)
      ∧ ((⟨0, [5]⟩ : Semaphore).V = (((⟨0, [5]⟩ : Semaphore).Vready).1.Vinc, ((⟨0, [5]⟩ : Semaphore).Vready).2)
      ∧ (((⟨0, [5]⟩ : Semaphore).Vready).1.value = (0 : Int))
      ∧ (((⟨0, [5]⟩ : Semaphore).Vready).2 = some 5)
      ∧ (((⟨0, [5]⟩ : Semaphore).V).1.value = (0 : Int) + 1)
      ∧ (((⟨0, [5]⟩ : Semaphore).V).1.Pstep 5 = .proceed ⟨0, []⟩)
      ∧ ∀ (s2 : Semaphore) (t : Tid),
          (∃ s3, s2.Pstep t = .proceed s3) ∨ (∃ s3, s2.Pstep t = .block s3)) :=
  ⟨⟨rfl, by decide⟩, semaphore_v_readies_before_increment ⟨0, [5]⟩ 5 [] rfl (by decide)⟩

/-- CResult is the outcome of a Condition operation: ok with the new
state, or fatal when an ASSERT fires. -/
inductive CResult (α : Type) where
  | ok (a : α)
  | fatal
deriving DecidableEq

/-- Cond000 is the queue-based Condition of src/unnamed/part_000 lines
162-166: firstLock remembers the first Lock passed to any operation
(NULL at construction, modelled as none) and queue is the raw wait
queue.  Locks are identified by numbers (the value of the C++ pointer). -/
structure Cond000 where
  firstLock : Option Nat
  queue : List Tid
deriving DecidableEq

/-- bindCheck is the common prologue of Wait, Signal and Broadcast in
src/unnamed/part_000 (lines 173-179, 190-196 and 207-213): if firstLock
is NULL it is set to the lock passed, then ASSERT(firstLock equals
conditionLock) and ASSERT(conditionLock is held by the current thread);
held tells whether the calling thread holds the passed lock. -/
def bindCheck (c : Cond000) (l : Nat) (held : Bool) : CResult Cond000 :=
  let c1 := if c.firstLock = none then { c with firstLock := some l } else c
  if c1.firstLock ≠ some l then .fatal
  else if held = false then .fatal
  else .ok c1

/-- wait000 is Condition::Wait of src/unnamed/part_000 lines 173-188:
after the binding checks, the caller appends itself to the wait queue,
releases the lock, sleeps, and on wakeup re-acquires the lock.  The lock
and scheduler effects are those of the Lock model above; on the
condition's own state the effect is the enqueue. -/
def wait000 (c : Cond000) (l : Nat) (held : Bool) (t : Tid) : CResult Cond000 :=
  match bindCheck c l held with
  | .fatal => .fatal
  | .ok c1 => .ok { c1 with queue := c1.queue ++ [t] }

/-- signal000 is Condition::Signal of src/unnamed/part_000 lines
190-205: after the binding checks, remove one thread from the front of
the queue (if any) and make it runnable. -/
def signal000 (c : Cond000) (l : Nat) (held : Bool) : CResult (Cond000 × Option Tid) :=
  match bindCheck c l held with
  | .fatal => .fatal
  | .ok c1 =>
      match c1.queue with
      | [] => .ok (c1, none)
      | w :: rest => .ok ({ c1 with queue := rest }, some w)

/-- broadcast000 is Condition::Broadcast of src/unnamed/part_000 lines
207-222: after the binding checks, repeatedly remove the front thread
from the queue and make it runnable until the queue is empty; the woken
threads are returned in the order readied. -/
def broadcast000 (c : Cond000) (l : Nat) (held : Bool) : CResult (Cond000 × List Tid) :=
  match bindCheck c l held with
  | .fatal => .fatal
  | .ok c1 => .ok ({ c1 with queue := [] }, c1.queue)

/-- semCondWait is the semaphore-based Condition::Wait of
src/code/threads/synch-sem.cc lines 150-156: the only check is
ASSERT(conditionLock is held by the current thread); there is no
firstLock binding in this implementation.  After the check the caller
releases the lock and performs P on the internal semaphore (either
blocking or consuming a positive value).  heldBy tells, for each lock
number, whether the calling thread holds it at call time. -/
def semCondWait (s : Semaphore) (conditionLock : Nat) (heldBy : Nat → Bool) (t : Tid) :
    CResult Semaphore :=
  if heldBy conditionLock = false then .fatal
  else
    match s.Pstep t with
    | .block s1 => .ok s1
    | .proceed s1 => .ok s1

/-- semCondSignal is the semaphore-based Condition::Signal of
src/code/threads/synch-sem.cc lines 158-165: the only check is
ASSERT(conditionLock is held by the current thread); then V if the
internal queue is nonempty, then clamp the value down to 1. -/
def semCondSignal (s : Semaphore) (conditionLock : Nat) (heldBy : Nat → Bool) :
    CResult (Semaphore × Option Tid) :=
  if heldBy conditionLock = false then .fatal
  else
    let p := if s.queue.isEmpty then (s, none) else s.V
    .ok (clampValue p.1, p.2)

/-- C4 counterexample: the semaphore-based Condition does not enforce
the lock binding.  A fresh Condition is first used with lock 0 (held by
the caller, thread 7, whose Wait blocks); a later Signal passing the
different lock 1 (held by its caller) is accepted, not rejected by a
fatal assertion, because this implementation only checks that the
caller holds the lock it passed. -/
theorem condition_binding_counterexample :
    semCondWait ⟨0, []⟩ 0 (fun l => decide (l = 0)) 7 = .ok ⟨0, [7]⟩
      ∧ semCondSignal ⟨0, [7]⟩ 1 (fun l => decide (l = 1)) = .ok (⟨1, []⟩, some 7)
      ∧ (1 : Nat) ≠ 0 := by
  decide

/-- C4 amended: in the queue-based Condition of src/unnamed/part_000 the
binding IS enforced: the first Lock passed to any of Wait, Signal or
Broadcast becomes the permanent binding, every later call with a
different Lock is rejected by the fatal assertion, and successful Wait
calls preserve the binding.  (The semaphore-based Condition of
synch-sem.cc checks only that the caller holds the lock it passed; see
the counterexample.) -/
theorem condition_binding_enforced_000
    (c : Cond000) (l l' : Nat) (t : Tid)
    (hfresh : c.firstLock = none) (hne : l' ≠ l) :
    (∃ c1, wait000 c l true t = .ok c1 ∧ c1.firstLock = some l)
      ∧ (∀ (c1 : Cond000) (held : Bool) (t' : Tid),
          c1.firstLock = some l → wait000 c1 l' held t' = .fatal)
      ∧ (∀ (c1 : Cond000) (held : Bool),
          c1.firstLock = some l → signal000 c1 l' held = .fatal)
      ∧ (∀ (c1 : Cond000) (held : Bool),
          c1.firstLock = some l → broadcast000 c1 l' held = .fatal)
      ∧ (∀ (c1 c2 : Cond000) (held : Bool) (t' : Tid),
          c1.firstLock = some l → wait000 c1 l held t' = .ok c2 →
            c2.firstLock = some l) := by
  have hne' : l ≠ l' := fun e => hne e.symm
  refine ⟨⟨⟨some l, c.queue ++ [t]⟩, ?_, rfl⟩, ?_, ?_, ?_, ?_⟩
  · simp [wait000, bindCheck, hfresh]
  · intro c1 held t' hb
    simp [wait000, bindCheck, hb, hne']
  · intro c1 held hb
    simp [signal000, bindCheck, hb, hne']
  · intro c1 held hb
    simp [broadcast000, bindCheck, hb, hne']
  · intro c1 c2 held t' hb hw
    rcases held with _ | _
    · simp [wait000, bindCheck, hb] at hw
    · simp [wait000, bindCheck, hb] at hw
      rw [← hw]

/-- Witness for C4 (amended) at a fresh Condition, locks 0 and 1,
caller thread 7. -/
theorem condition_binding_enforced_000_witness :
    ((Cond000.firstLock ⟨none, []⟩ = none) ∧ (1 : Nat) ≠ 0)
      ∧ ((∃ c1, wait000 ⟨none, []⟩ 0 true 7 = .ok c1 ∧ c1.firstLock = some 0)
      ∧ (∀ (c1 : Cond000) (held : Bool) (t' : Tid),
          c1.firstLock = some 0 → wait000 c1 1 held t' = .fatal)
      ∧ (∀ (c1 : Cond000) (held : Bool),
          c1.firstLock = some 0 → signal000 c1 1 held = .fatal)
      ∧ (∀ (c1 : Cond000) (held : Bool),
          c1.firstLock = some 0 → broadcast000 c1 1 held = .fatal)
      ∧ (∀ (c1 c2 : Cond000) (held : Bool) (t' : Tid),
          c1.firstLock = some 0 → wait000 c1 0 held t' = .ok c2 →
            c2.firstLock = some 0)) :=
  ⟨⟨rfl, by decide⟩,
    condition_binding_enforced_000 ⟨none, []⟩ 0 1 7 rfl (by decide)⟩

/-- C2 (code bug evidence): with two threads blocked in Wait on the
semaphore-based Condition (internal semaphore value 0, queue holding
threads 0 and 1), one Broadcast readies both threads but clamps the
internal value down to 1; when the two woken threads resume inside P,
only thread 0 completes Wait, and thread 1 finds the value 0 again,
re-enqueues itself, and is blocked on the Condition afterward, so the
claim that all N waiters resume and zero remain waiting fails at N = 2. -/
theorem condition_broadcast_loses_waiter :
    (condBroadcast ⟨0, [0, 1]⟩).2 = [0, 1]
      ∧ (condBroadcast ⟨0, [0, 1]⟩).1 = ⟨1, []⟩
      ∧ (resumeWoken (condBroadcast ⟨0, [0, 1]⟩).1 (condBroadcast ⟨0, [0, 1]⟩).2).2 = [0]
      ∧ (resumeWoken (condBroadcast ⟨0, [0, 1]⟩).1 (condBroadcast ⟨0, [0, 1]⟩).2).1.queue = [1] := by
  decide

end Synch

namespace Elev

/-- Barrier is the EventBarrier used for the door rendezvous.  Modelled
from the spec: the EventBarrier implementation is not under src/ (only
its callers are).  Per spec sections 3 and 4.4 it holds a count of
blocked callers (read by Waiters), Wait blocks the caller until a paired
Complete, Signal wakes one waiting caller so it can proceed to attempt
entry, and Complete releases exactly one blocked Wait caller.  Here
waiting counts the blocked callers, signaled counts Signal calls and
completed counts Complete calls. -/
structure Barrier where
  waiting : Nat
  signaled : Nat
  completed : Nat
deriving DecidableEq

/-- barWait is EventBarrier::Wait: the caller blocks. -/
def barWait (b : Barrier) : Barrier := { b with waiting := b.waiting + 1 }

/-- barSignal is EventBarrier::Signal: wake one waiting caller. -/
def barSignal (b : Barrier) : Barrier := { b with signaled := b.signaled + 1 }

/-- barComplete is EventBarrier::Complete: release exactly one blocked
Wait caller. -/
def barComplete (b : Barrier) : Barrier :=
  { b with waiting := b.waiting - 1, completed := b.completed + 1 }

/-- barWaiters is EventBarrier::Waiters: the current blocked count. -/
def barWaiters (b : Barrier) : Nat := b.waiting

/-- freshBarrier is a newly constructed EventBarrier with no waiters. -/
def freshBarrier : Barrier := ⟨0, 0, 0⟩

/-- EBState combines the fields of one Elevator (src/unnamed/part_001
lines 8-24: currentfloor, occupancy, dir, floorCalled, exitBar,
elevatorID, floorCounts) with the Building fields it touches (lines
248-278: riderRequest, floorCalledUp, floorCalledDown, enterBarUp,
enterBarDown, elevatorUpID, elevatorDownID).  The C++ arrays indexed by
floor 1..floorCounts are total functions here. -/
structure EBState where
  currentfloor : Nat
  occupancy : Int
  dir : Nat
  floorCalled : Nat → Nat
  exitBar : Nat → Barrier
  elevatorID : Nat
  floorCounts : Nat
  riderRequest : Int
  floorCalledUp : Nat → Nat
  floorCalledDown : Nat → Nat
  enterBarUp : Nat → Barrier
  enterBarDown : Nat → Barrier
  elevatorUpID : Nat → Nat
  elevatorDownID : Nat → Nat

/-- dirUp names the direction encoding of the source: the Operating loop
treats dir 1 as the up state (src/unnamed/part_001 line 160), as do
getelevID, OpenDoors and Enter. -/
def dirUp : Nat := 1

/-- dirDown names the down state, dir 0 (src/unnamed/part_001 line 196). -/
def dirDown : Nat := 0

/-- initEB is the state right after Building's constructor has built one
Elevator (src/unnamed/part_001 lines 8-24 for the elevator fields and
248-278 for the building fields): the elevator starts at floor 1,
occupancy 0, dir 0, all inside buttons cleared, fresh exit barriers; the
building starts with riderRequest 0, all call flags cleared, fresh entry
barriers.  The elevatorUpID/elevatorDownID arrays are allocated
uninitialized in the source and are modelled as all zero. -/
def initEB (numFloors : Nat) (myID : Nat) : EBState :=
  { currentfloor := 1, occupancy := 0, dir := 0,
    floorCalled := fun _ => 0, exitBar := fun _ => freshBarrier,
    elevatorID := myID, floorCounts := numFloors, riderRequest := 0,
    floorCalledUp := fun _ => 0, floorCalledDown := fun _ => 0,
    enterBarUp := fun _ => freshBarrier, enterBarDown := fun _ => freshBarrier,
    elevatorUpID := fun _ => 0, elevatorDownID := fun _ => 0 }

/-- Enter is Elevator::Enter (src/unnamed/part_001 lines 82-115).  The
rider first decrements the Building's riderRequest; the ASSERT that
riderRequest is still nonnegative is fatal when violated (result none).
If occupancy is below capacity the rider enters: occupancy is
incremented and, by direction, in the dir 1 branch the floor's up-call
flag is cleared and enterBarUp completed, in the dir 0 branch the
down-call flag is cleared and enterBarDown completed; the call returns
true.  Otherwise the elevator is full: in the dir 1 branch the source
clears floorCalledDown at the current floor (not floorCalledUp) and
completes enterBarUp; in the dir 0 branch it clears floorCalledDown and
completes enterBarDown; the call returns false after a yield. -/
def Enter (capacity : Int) (s : EBState) : Option (Bool × EBState) :=
  let s0 := { s with riderRequest := s.riderRequest - 1 }
  if s0.riderRequest < 0 then none
  else if s0.occupancy < capacity then
    let s1 := { s0 with occupancy := s0.occupancy + 1 }
    if s1.dir = 1 then
      some (true,
        { s1 with
            floorCalledUp := Function.update s1.floorCalledUp s1.currentfloor 0,
            enterBarUp := Function.update s1.enterBarUp s1.currentfloor
              (barComplete (s1.enterBarUp s1.currentfloor)) })
    else
      some (true,
        { s1 with
            floorCalledDown := Function.update s1.floorCalledDown s1.currentfloor 0,
            enterBarDown := Function.update s1.enterBarDown s1.currentfloor
              (barComplete (s1.enterBarDown s1.currentfloor)) })
  else
    if s0.dir = 1 then
      some (false,
        { s0 with
            floorCalledDown := Function.update s0.floorCalledDown s0.currentfloor 0,
            enterBarUp := Function.update s0.enterBarUp s0.currentfloor
              (barComplete (s0.enterBarUp s0.currentfloor)) })
    else
      some (false,
        { s0 with
            floorCalledDown := Function.update s0.floorCalledDown s0.currentfloor 0,
            enterBarDown := Function.update s0.enterBarDown s0.currentfloor
              (barComplete (s0.enterBarDown s0.currentfloor)) })

/-- ExitElev is Elevator::Exit (src/unnamed/part_001 lines 117-122): the
rider decrements occupancy unconditionally (there is no check that a
rider is inside) and completes the exit barrier at the current floor. -/
def ExitElev (s : EBState) : EBState :=
  { s with
      occupancy := s.occupancy - 1,
      exitBar := Function.update s.exitBar s.currentfloor
        (barComplete (s.exitBar s.currentfloor)) }

/-- VisitFloor is Elevator::VisitFloor (src/unnamed/part_001 lines
63-80): after pausing for the travel time (time is not modelled), set
currentfloor to the target floor and reset that floor's inside button. -/
def VisitFloor (s : EBState) (floor : Nat) : EBState :=
  { s with
      currentfloor := floor,
      floorCalled := Function.update s.floorCalled floor 0 }

/-- getelevID is Elevator::getelevID (src/unnamed/part_001 lines 33-39):
record this elevator as the last to arrive at the current floor in its
direction (Building::GetUpID / GetDownID write the registry under its
small lock, whose effect on the registry is the write itself). -/
def getelevID (s : EBState) : EBState :=
  if s.dir = 1 then
    { s with elevatorUpID := Function.update s.elevatorUpID s.currentfloor s.elevatorID }
  else
    { s with elevatorDownID := Function.update s.elevatorDownID s.currentfloor s.elevatorID }

/-- OpenDoors is Elevator::OpenDoors (src/unnamed/part_001 lines 41-55):
signal the exit barrier at the current floor if it has waiters, record
the elevator ID in the direction registry, then signal the entry barrier
matching the direction if it has waiters. -/
def OpenDoors (s : EBState) : EBState :=
  let s1 :=
    if barWaiters (s.exitBar s.currentfloor) > 0 then
      { s with exitBar := Function.update s.exitBar s.currentfloor
                 (barSignal (s.exitBar s.currentfloor)) }
    else s
  let s2 := getelevID s1
  let s3 :=
    if barWaiters (s2.enterBarUp s2.currentfloor) > 0 ∧ s2.dir = 1 then
      { s2 with enterBarUp := Function.update s2.enterBarUp s2.currentfloor
                  (barSignal (s2.enterBarUp s2.currentfloor)) }
    else s2
  if barWaiters (s3.enterBarDown s3.currentfloor) > 0 ∧ s3.dir = 0 then
    { s3 with enterBarDown := Function.update s3.enterBarDown s3.currentfloor
                (barSignal (s3.enterBarDown s3.currentfloor)) }
  else s3

/-- CloseDoors is Elevator::CloseDoors (src/unnamed/part_001 lines
57-61): a voluntary yield and a debug print; it changes no elevator or
building state. -/
def CloseDoors (s : EBState) : EBState := s

/-- noneedUp is Elevator::noneedUp (src/unnamed/part_001 lines 131-141):
1 when no floor strictly above here (up to floorCounts) has an outside
up-call or an inside destination, 0 otherwise. -/
def noneedUp (s : EBState) (here : Nat) : Nat :=
  if (List.range' (here + 1) (s.floorCounts - here)).any
       (fun i => s.floorCalledUp i == 1 || s.floorCalled i == 1) then 0 else 1

/-- noneedDown is Elevator::noneedDown (src/unnamed/part_001 lines
143-153): 1 when no floor strictly below here (down to 1) has an outside
down-call or an inside destination, 0 otherwise. -/
def noneedDown (s : EBState) (here : Nat) : Nat :=
  if (List.range' 1 (here - 1)).any
       (fun i => s.floorCalledDown i == 1 || s.floorCalled i == 1) then 0 else 1

/-- upVisitBody is the body of one hit of the up-scan loop of
Elevator::Operating at floor i (src/unnamed/part_001 lines 164-182):
visit the floor, open doors; if nothing above still needs an up visit
and this floor has a down-call, flip dir to 0, clear the down-call flag
at the current floor and signal enterBarDown if it has waiters, then
close doors and stop the scan (break); otherwise close doors and
continue.  Returns the new state and whether the loop broke. -/
def upVisitBody (s : EBState) (i : Nat) : EBState × Bool :=
  let s1 := OpenDoors (VisitFloor s i)
  if noneedUp s1 i = 1 then
    let s2 :=
      if s1.floorCalledDown i = 1 then
        let sa := { s1 with dir := 0 }
        let sb := { sa with floorCalledDown :=
                      Function.update sa.floorCalledDown sa.currentfloor 0 }
        if barWaiters (sb.enterBarDown sb.currentfloor) > 0 then
          { sb with enterBarDown := Function.update sb.enterBarDown sb.currentfloor
                      (barSignal (sb.enterBarDown sb.currentfloor)) }
        else sb
      else s1
    (CloseDoors s2, true)
  else (CloseDoors s1, false)

/-- upScanFrom runs the up-scan for loop of Elevator::Operating
(src/unnamed/part_001 lines 162-183) over the given list of candidate
floors: each floor with an up-call or inside destination is visited via
upVisitBody, stopping early when it breaks. -/
def upScanFrom (s : EBState) : List Nat → EBState
  | [] => s
  | i :: rest =>
      if s.floorCalledUp i = 1 ∨ s.floorCalled i = 1 then
        let p := upVisitBody s i
        if p.2 then p.1 else upScanFrom p.1 rest
      else upScanFrom s rest

/-- upScan instantiates upScanFrom at the floors the source scans:
currentfloor+1 up to floorCounts. -/
def upScan (s : EBState) : EBState :=
  upScanFrom s (List.range' (s.currentfloor + 1) (s.floorCounts - s.currentfloor))

/-- downCheckFrom runs the leftover down-call check of the dir 1 arm
(src/unnamed/part_001 lines 184-192) over the given floor list: the
first floor with a down-call is visited, dir is set to 0, doors open and
close, and the loop breaks. -/
def downCheckFrom (s : EBState) : List Nat → EBState
  | [] => s
  | i :: rest =>
      if s.floorCalledDown i = 1 then
        CloseDoors (OpenDoors { VisitFloor s i with dir := 0 })
      else downCheckFrom s rest

/-- downCheck instantiates downCheckFrom at the floors the source scans:
floorCounts down to 1. -/
def downCheck (s : EBState) : EBState :=
  downCheckFrom s (List.range' 1 s.floorCounts).reverse

/-- upIteration is one execution of the dir 1 arm of the main loop of
Elevator::Operating (src/unnamed/part_001 lines 160-195): the up scan
over the floors above, then the scan for leftover down-calls from the
top, then dir is set to 0.  The trailing idle check of the loop (lines
231-237) changes no elevator or building state when riderRequest is
nonzero. -/
def upIteration (s : EBState) : EBState :=
  { downCheck (upScan s) with dir := 0 }

/-- EOp is one rider call on the elevator: Enter or Exit. -/
inductive EOp where
  | enterOp
  | exitOp
deriving DecidableEq

/-- runOps executes a sequence of Enter/Exit calls on the combined
state; execution stops with none when Enter's riderRequest assertion
fires.  Enter's boolean result does not stop the run (a rejected rider
just gets false back). -/
def runOps (capacity : Int) : EBState → List EOp → Option EBState
  | s, [] => some s
  | s, .enterOp :: rest =>
      match Enter capacity s with
      | none => none
      | some p => runOps capacity p.2 rest
  | s, .exitOp :: rest => runOps capacity (ExitElev s) rest

/-- exitsCount counts the Exit calls in a sequence. -/
def exitsCount : List EOp → Nat
  | [] => 0
  | .exitOp :: r => exitsCount r + 1
  | .enterOp :: r => exitsCount r

/-- succEnters counts, along the execution from s, the Enter calls that
took the success branch (returned true). -/
def succEnters (capacity : Int) : EBState → List EOp → Nat
  | _, [] => 0
  | s, .exitOp :: r => succEnters capacity (ExitElev s) r
  | s, .enterOp :: r =>
      match Enter capacity s with
      | none => 0
      | some p => (if p.1 then 1 else 0) + succEnters capacity p.2 r

/-- scn8 is the direction-reversal scenario of C8: a 5-floor building,
the elevator (ID 3) at floor 1 moving up, no up-calls and no inside
destinations, the only pending request a down-call at floor 4 with one
rider blocked on enterBarDown at floor 4, riderRequest 1. -/
def scn8 : EBState :=
  { currentfloor := 1, occupancy := 0, dir := 1,
    floorCalled := fun _ => 0,
    exitBar := fun _ => freshBarrier,
    elevatorID := 3, floorCounts := 5, riderRequest := 1,
    floorCalledUp := fun _ => 0,
    floorCalledDown := fun f => if f = 4 then 1 else 0,
    enterBarUp := fun _ => freshBarrier,
    enterBarDown := fun f => if f = 4 then ⟨1, 0, 0⟩ else freshBarrier,
    elevatorUpID := fun _ => 0, elevatorDownID := fun _ => 0 }

/-- exFull is a full elevator (occupancy 2 with capacity 2 in the
theorems using it), moving up at floor 1, with one outstanding rider
request and a rider blocked on each entry barrier. -/
def exFull : EBState :=
  { currentfloor := 1, occupancy := 2, dir := 1,
    floorCalled := fun _ => 0,
    exitBar := fun _ => freshBarrier,
    elevatorID := 0, floorCounts := 5, riderRequest := 1,
    floorCalledUp := fun _ => 1,
    floorCalledDown := fun _ => 1,
    enterBarUp := fun _ => ⟨1, 1, 0⟩,
    enterBarDown := fun _ => ⟨1, 1, 0⟩,
    elevatorUpID := fun _ => 0, elevatorDownID := fun _ => 0 }

/-- exRun is a fresh building/elevator state with five outstanding rider
requests, used to exercise Enter/Exit sequences. -/
def exRun : EBState := { initEB 5 0 with riderRequest := 5 }

end Elev

namespace Elev

/-- C7 counterexample: a freshly constructed Elevator does not start
with direction up: the constructor (src/unnamed/part_001 line 15) sets
dir to 0, and 0 is the down state of the Operating loop. -/
theorem elevator_initial_dir_counterexample :
    (initEB 5 0).dir = 0 ∧ (initEB 5 0).dir ≠ dirUp := by
  decide

/-- C7 amended: a freshly constructed Elevator starts at floor 1 with
occupancy 0 and direction down (dir 0). -/
theorem elevator_initial_state (numFloors myID : Nat) :
    (initEB numFloors myID).currentfloor = 1
      ∧ (initEB numFloors myID).occupancy = 0
      ∧ (initEB numFloors myID).dir = dirDown :=
  ⟨rfl, rfl, rfl⟩

/-- C8: direction reversal.  In scn8 (elevator at floor 1 moving up, the
only pending request a down-call at floor 4, nothing above needing an up
visit), one iteration of the Operating loop's up arm travels the
elevator to floor 4, opens the doors there (registering the elevator in
the floor-4 down registry and signalling the floor-4 down entry barrier,
which had a waiter), and flips the direction to down, without skipping
the request. -/
theorem direction_reversal_scenario :
    scn8.currentfloor = 1 ∧ scn8.dir = dirUp
      ∧ (upIteration scn8).currentfloor = 4
      ∧ (upIteration scn8).dir = dirDown
      ∧ (upIteration scn8).elevatorDownID 4 = scn8.elevatorID
      ∧ ((upIteration scn8).enterBarDown 4).signaled = 1 := by
  decide

/-- C6: an Enter call made when occupancy already equals capacity (and
with an outstanding rider request, so the unrelated riderRequest
assertion passes) returns false rather than raising a fatal error, and
leaves occupancy unchanged. -/
theorem enter_at_capacity_fails (capacity : Int) (s : EBState)
    (hfull : s.occupancy = capacity) (hreq : 1 ≤ s.riderRequest) :
    ∃ s', Enter capacity s = some (false, s') ∧ s'.occupancy = s.occupancy := by
  have h0 : ¬ (s.riderRequest - 1 < 0) := by omega
  have h1 : ¬ (s.occupancy < capacity) := by omega
  by_cases hd : s.dir = 1
  · have hE : Enter capacity s = some (false,
        { s with
            riderRequest := s.riderRequest - 1,
            floorCalledDown := Function.update s.floorCalledDown s.currentfloor 0,
            enterBarUp := Function.update s.enterBarUp s.currentfloor
              (barComplete (s.enterBarUp s.currentfloor)) }) := by
      simp [Enter, h0, h1, hd]
    exact ⟨_, hE, rfl⟩
  · have hE : Enter capacity s = some (false,
        { s with
            riderRequest := s.riderRequest - 1,
            floorCalledDown := Function.update s.floorCalledDown s.currentfloor 0,
            enterBarDown := Function.update s.enterBarDown s.currentfloor
              (barComplete (s.enterBarDown s.currentfloor)) }) := by
      simp [Enter, h0, h1, hd]
    exact ⟨_, hE, rfl⟩

/-- Witness for C6 at the full elevator exFull with capacity 2. -/
theorem enter_at_capacity_fails_witness :
    (exFull.occupancy = 2 ∧ (1 : Int) ≤ exFull.riderRequest)
      ∧ ∃ s', Enter 2 exFull = some (false, s') ∧ s'.occupancy = exFull.occupancy :=
  ⟨⟨rfl, by decide⟩, enter_at_capacity_fails 2 exFull rfl (by decide)⟩

/-- C9: every Enter call decrements the Building's riderRequest by
exactly one before deciding admission: when at least one request is
outstanding, Enter returns (in both the success branch, result true
when occupancy is below capacity, and the capacity-exceeded branch,
result false) with riderRequest exactly one lower; when no request is
outstanding, the assertion that riderRequest stays nonnegative fires
after the decrement and Enter is fatal. -/
theorem enter_decrements_riderRequest (capacity : Int) (s : EBState) :
    (1 ≤ s.riderRequest →
        ∃ s', Enter capacity s = some (decide (s.occupancy < capacity), s')
          ∧ s'.riderRequest = s.riderRequest - 1)
      ∧ (s.riderRequest ≤ 0 → Enter capacity s = none) := by
  constructor
  · intro hreq
    have h0 : ¬ (s.riderRequest - 1 < 0) := by omega
    by_cases hocc : s.occupancy < capacity
    · by_cases hd : s.dir = 1
      · have hE : Enter capacity s = some (true,
            { s with
                riderRequest := s.riderRequest - 1,
                occupancy := s.occupancy + 1,
                floorCalledUp := Function.update s.floorCalledUp s.currentfloor 0,
                enterBarUp := Function.update s.enterBarUp s.currentfloor
                  (barComplete (s.enterBarUp s.currentfloor)) }) := by
          simp [Enter, h0, hocc, hd]
        have hb : decide (s.occupancy < capacity) = true := by simp [hocc]
        rw [hb]
        exact ⟨_, hE, rfl⟩
      · have hE : Enter capacity s = some (true,
            { s with
                riderRequest := s.riderRequest - 1,
                occupancy := s.occupancy + 1,
                floorCalledDown := Function.update s.floorCalledDown s.currentfloor 0,
                enterBarDown := Function.update s.enterBarDown s.currentfloor
                  (barComplete (s.enterBarDown s.currentfloor)) }) := by
          simp [Enter, h0, hocc, hd]
        have hb : decide (s.occupancy < capacity) = true := by simp [hocc]
        rw [hb]
        exact ⟨_, hE, rfl⟩
    · by_cases hd : s.dir = 1
      · have hE : Enter capacity s = some (false,
            { s with
                riderRequest := s.riderRequest - 1,
                floorCalledDown := Function.update s.floorCalledDown s.currentfloor 0,
                enterBarUp := Function.update s.enterBarUp s.currentfloor
                  (barComplete (s.enterBarUp s.currentfloor)) }) := by
          simp [Enter, h0, hocc, hd]
        have hb : decide (s.occupancy < capacity) = false := by simp [hocc]
        rw [hb]
        exact ⟨_, hE, rfl⟩
      · have hE : Enter capacity s = some (false,
            { s with
                riderRequest := s.riderRequest - 1,
                floorCalledDown := Function.update s.floorCalledDown s.currentfloor 0,
                enterBarDown := Function.update s.enterBarDown s.currentfloor
                  (barComplete (s.enterBarDown s.currentfloor)) }) := by
          simp [Enter, h0, hocc, hd]
        have hb : decide (s.occupancy < capacity) = false := by simp [hocc]
        rw [hb]
        exact ⟨_, hE, rfl⟩
  · intro hreq
    have h0 : s.riderRequest - 1 < 0 := by omega
    simp [Enter, h0]

/-- Witness for C9: the success side at exFull with capacity 3 (the
elevator admits the rider) and the fatal side at a fresh building with
riderRequest 0. -/
theorem enter_decrements_riderRequest_witness :
    ((1 : Int) ≤ exFull.riderRequest
      ∧ ∃ s', Enter 3 exFull = some (decide (exFull.occupancy < 3), s')
          ∧ s'.riderRequest = exFull.riderRequest - 1)
      ∧ ((initEB 5 0).riderRequest ≤ 0 ∧ Enter 3 (initEB 5 0) = none) :=
  ⟨⟨by decide, (enter_decrements_riderRequest 3 exFull).1 (by decide)⟩,
   ⟨by decide, (enter_decrements_riderRequest 3 (initEB 5 0)).2 (by decide)⟩⟩

/-- C10: frame effect of the full branch of Enter with the elevator
moving up (dir 1): when the elevator is full, the rejected rider clears
the Building's DOWN-call flag at the current floor (floorCalledDown, as
the source does), completes the up entry barrier enterBarUp, and leaves
the up-call flag floorCalledUp entirely unchanged (and enterBarDown
unchanged); only in the successful branch is the flag matching the
travel direction (floorCalledUp) cleared, with floorCalledDown then
unchanged. -/
theorem enter_full_up_branch_frame (capacity : Int) (s : EBState)
    (hreq : 1 ≤ s.riderRequest) (hd : s.dir = 1) :
    (¬ s.occupancy < capacity →
        ∃ s', Enter capacity s = some (false, s')
          ∧ s'.floorCalledDown s.currentfloor = 0
          ∧ s'.floorCalledUp = s.floorCalledUp
          ∧ (s'.enterBarUp s.currentfloor).completed
              = (s.enterBarUp s.currentfloor).completed + 1
          ∧ s'.enterBarDown = s.enterBarDown)
      ∧ (s.occupancy < capacity →
        ∃ s', Enter capacity s = some (true, s')
          ∧ s'.floorCalledUp s.currentfloor = 0
          ∧ s'.floorCalledDown = s.floorCalledDown) := by
  have h0 : ¬ (s.riderRequest - 1 < 0) := by omega
  constructor
  · intro hocc
    have hE : Enter capacity s = some (false,
        { s with
            riderRequest := s.riderRequest - 1,
            floorCalledDown := Function.update s.floorCalledDown s.currentfloor 0,
            enterBarUp := Function.update s.enterBarUp s.currentfloor
              (barComplete (s.enterBarUp s.currentfloor)) }) := by
      simp [Enter, h0, hocc, hd]
    refine ⟨_, hE, ?_, rfl, ?_, rfl⟩
    · simp [Function.update_same]
    · simp [Function.update_same, barComplete]
  · intro hocc
    have hE : Enter capacity s = some (true,
        { s with
            riderRequest := s.riderRequest - 1,
            occupancy := s.occupancy + 1,
            floorCalledUp := Function.update s.floorCalledUp s.currentfloor 0,
            enterBarUp := Function.update s.enterBarUp s.currentfloor
              (barComplete (s.enterBarUp s.currentfloor)) }) := by
      simp [Enter, h0, hocc, hd]
    refine ⟨_, hE, ?_, rfl⟩
    simp [Function.update_same]

/-- enterCases relates Enter's boolean result to the occupancy change:
the success branch fires exactly when occupancy is below capacity and
increments occupancy; the full branch returns false and leaves occupancy
unchanged. -/
theorem enterCases (capacity : Int) (s : EBState) (b : Bool) (s' : EBState)
    (h : Enter capacity s = some (b, s')) :
    (b = true ∧ s.occupancy < capacity ∧ s'.occupancy = s.occupancy + 1)
      ∨ (b = false ∧ ¬ s.occupancy < capacity ∧ s'.occupancy = s.occupancy) := by
  simp only [Enter] at h
  split at h
  · exact Option.noConfusion h
  · split at h
    · rename_i hocc
      split at h
      · injection h with h1
        injection h1 with hb hs
        exact Or.inl ⟨hb.symm, hocc, by rw [← hs]⟩
      · injection h with h1
        injection h1 with hb hs
        exact Or.inl ⟨hb.symm, hocc, by rw [← hs]⟩
    · rename_i hocc
      split at h
      · injection h with h1
        injection h1 with hb hs
        exact Or.inr ⟨hb.symm, hocc, by rw [← hs]⟩
      · injection h with h1
        injection h1 with hb hs
        exact Or.inr ⟨hb.symm, hocc, by rw [← hs]⟩

/-- runOps_occupancy characterizes the occupancy after a run: it is the
starting occupancy plus the successful Enter calls minus the Exit calls. -/
theorem runOps_occupancy (capacity : Int) :
    ∀ (ops : List EOp) (s s' : EBState),
      runOps capacity s ops = some s' →
      s'.occupancy
        = s.occupancy + (succEnters capacity s ops : Int) - (exitsCount ops : Int) := by
  intro ops
  induction ops with
  | nil =>
      intro s s' h
      simp only [runOps] at h
      injection h with h1
      rw [← h1]
      simp [succEnters, exitsCount]
  | cons op rest ih =>
      intro s s' h
      cases op with
      | exitOp =>
          simp only [runOps] at h
          have hr := ih (ExitElev s) s' h
          rw [hr]
          simp only [succEnters, exitsCount]
          have he : (ExitElev s).occupancy = s.occupancy - 1 := rfl
          rw [he]
          push_cast
          ring
      | enterOp =>
          cases hE : Enter capacity s with
          | none =>
              simp only [runOps, hE] at h
              exact Option.noConfusion h
          | some p =>
              obtain ⟨b, s2⟩ := p
              simp only [runOps, hE] at h
              have hr := ih s2 s' h
              rcases enterCases capacity s b s2 hE with ⟨hb, _, hocc⟩ | ⟨hb, _, hocc⟩
              · subst hb
                rw [hr, hocc]
                simp only [succEnters, exitsCount, hE, if_pos rfl]
                push_cast
                ring
              · subst hb
                rw [hr, hocc]
                simp only [succEnters, exitsCount, hE]
                push_cast
                ring

/-- runOps_occupancy_le shows the upper bound holds unconditionally:
Enter never admits a rider at or above capacity, and Exit only lowers
occupancy, so any run from a state within capacity stays within it. -/
theorem runOps_occupancy_le (capacity : Int) :
    ∀ (ops : List EOp) (s s' : EBState), s.occupancy ≤ capacity →
      runOps capacity s ops = some s' → s'.occupancy ≤ capacity := by
  intro ops
  induction ops with
  | nil =>
      intro s s' hle h
      simp only [runOps] at h
      injection h with h1
      rw [← h1]
      exact hle
  | cons op rest ih =>
      intro s s' hle h
      cases op with
      | exitOp =>
          simp only [runOps] at h
          refine ih (ExitElev s) s' ?_ h
          have he : (ExitElev s).occupancy = s.occupancy - 1 := rfl
          rw [he]
          omega
      | enterOp =>
          cases hE : Enter capacity s with
          | none =>
              simp only [runOps, hE] at h
              exact Option.noConfusion h
          | some p =>
              obtain ⟨b, s2⟩ := p
              simp only [runOps, hE] at h
              refine ih s2 s' ?_ h
              rcases enterCases capacity s b s2 hE with ⟨_, hlt, hocc⟩ | ⟨_, _, hocc⟩
              · rw [hocc]
                omega
              · rw [hocc]
                exact hle

/-- C5 counterexample: starting from occupancy 0 (a fresh building), the
single-call sequence consisting of one Exit drives occupancy to -1,
outside the claimed range [0, capacity]: the source's Exit decrements
occupancy unconditionally, with no check that a rider is inside. -/
theorem occupancy_range_counterexample :
    (initEB 5 0).occupancy = 0
      ∧ (runOps 2 (initEB 5 0) [EOp.exitOp]).map EBState.occupancy = some (-1)
      ∧ ¬ (0 : Int) ≤ -1 := by
  decide

/-- C5 amended: for sequences of Enter/Exit calls starting from
occupancy 0 in which, along every prefix, the number of Exit calls does
not exceed the number of successful Enter calls (each exiting rider
actually entered first, as in the intended use), occupancy stays within
[0, capacity] after every call; the upper bound needs no such condition.
An unmatched Exit (see the counterexample) drives occupancy below 0. -/
theorem occupancy_stays_in_range (capacity : Int) (s : EBState) (ops : List EOp)
    (h0 : s.occupancy = 0) (hcap : 0 ≤ capacity)
    (hbal : ∀ p q, ops = p ++ q → exitsCount p ≤ succEnters capacity s p) :
    ∀ p q, ops = p ++ q → ∀ s', runOps capacity s p = some s' →
      0 ≤ s'.occupancy ∧ s'.occupancy ≤ capacity := by
  intro p q hpq s' hrun
  constructor
  · have hf := runOps_occupancy capacity p s s' hrun
    have hb := hbal p q hpq
    have hb' : (exitsCount p : Int) ≤ (succEnters capacity s p : Int) := by
      exact_mod_cast hb
    rw [hf, h0]
    omega
  · refine runOps_occupancy_le capacity p s s' ?_ hrun
    rw [h0]
    exact hcap

/-- Witness for C5 (amended) with capacity 1 and the sequence Enter,
Enter (the second rejected: the elevator is full), Exit, from a fresh
building with five outstanding rider requests. -/
theorem occupancy_stays_in_range_witness :
    (exRun.occupancy = 0 ∧ (0 : Int) ≤ 1
      ∧ (∀ p q, ([EOp.enterOp, EOp.enterOp, EOp.exitOp] : List EOp) = p ++ q →
          exitsCount p ≤ succEnters 1 exRun p))
      ∧ (∀ p q, ([EOp.enterOp, EOp.enterOp, EOp.exitOp] : List EOp) = p ++ q →
          ∀ s', runOps 1 exRun p = some s' →
            0 ≤ s'.occupancy ∧ s'.occupancy ≤ 1) := by
  have hbal : ∀ p q, ([EOp.enterOp, EOp.enterOp, EOp.exitOp] : List EOp) = p ++ q →
      exitsCount p ≤ succEnters 1 exRun p := by
    intro p q h
    rcases p with _ | ⟨a, p⟩
    · decide
    · injection h with h1 h2
      subst h1
      rcases p with _ | ⟨a, p⟩
      · decide
      · injection h2 with h3 h4
        subst h3
        rcases p with _ | ⟨a, p⟩
        · decide
        · injection h4 with h5 h6
          subst h5
          rcases p with _ | ⟨a, p⟩
          · decide
          · simp at h6
  exact ⟨⟨rfl, by decide, hbal⟩,
    occupancy_stays_in_range 1 exRun [EOp.enterOp, EOp.enterOp, EOp.exitOp]
      rfl (by decide) hbal⟩

/-- Witness for C10 at the full, upward-moving elevator exFull with
capacity 2 (the full branch applies: occupancy 2 is not below 2). -/
theorem enter_full_up_branch_frame_witness :
    ((1 : Int) ≤ exFull.riderRequest ∧ exFull.dir = 1
      ∧ ¬ exFull.occupancy < 2)
      ∧ ((¬ exFull.occupancy < 2 →
        ∃ s', Enter 2 exFull = some (false, s')
          ∧ s'.floorCalledDown exFull.currentfloor = 0
          ∧ s'.floorCalledUp = exFull.floorCalledUp
          ∧ (s'.enterBarUp exFull.currentfloor).completed
              = (exFull.enterBarUp exFull.currentfloor).completed + 1
          ∧ s'.enterBarDown = exFull.enterBarDown)
      ∧ (exFull.occupancy < 2 →
        ∃ s', Enter 2 exFull = some (true, s')
          ∧ s'.floorCalledUp exFull.currentfloor = 0
          ∧ s'.floorCalledDown = exFull.floorCalledDown)) :=
  ⟨⟨by decide, rfl, by decide⟩,
    enter_full_up_branch_frame 2 exFull (by decide) rfl⟩

end Elev
